import Mathlib

/-!
Shallow embedding of the transport-buffering layer of the repository:
  projects/drivers/communication_util/comm_util.c
  projects/drivers/network/network.c

The tagged FIFO of byte chunks (struct fifo) is modelled as a Lean list of
Chunk values; bytes are natural numbers (the byte values that matter are
CR = 13, LF = 10 and NUL = 0).  The len field of struct fifo is int32_t and
is kept as a separate Int field, because comm_read_line manipulates len and
the data pointer independently.  Heap memory after the head chunk buffer is
modelled explicitly as a tail byte list, because the scan in comm_read_line
uses strstr on a buffer that carries no NUL terminator and can therefore
read beyond the stored length.
-/

/-- One node of struct fifo: the connection tag instance_id, the stored
length len (int32_t in the source) and the owned data bytes. -/
structure Chunk where
  instance_id : Int
  len : Int
  data : List Nat
deriving DecidableEq

/-- fifo_insert_tail: appends a fresh node holding a copy of the first len
bytes of buff, tagged with id, at the tail of the queue. -/
def fifo_insert_tail (q : List Chunk) (buff : List Nat) (len : Int) (id : Int) :
    List Chunk :=
  q ++ [{ instance_id := id, len := len, data := buff.take len.toNat }]

/-- fifo_remove_head: frees the head node and returns the rest of the queue;
on the empty queue it returns the empty queue. -/
def fifo_remove_head : List Chunk → List Chunk
  | [] => []
  | _ :: rest => rest

/-- strstr(haystack, CRLF) over a modelled memory region: index of the
first CR LF pair that occurs before the first NUL byte.  Reaching the end
of the modelled region without CR LF or NUL counts as not found. -/
def findCRLF : List Nat → Option Nat
  | [] => none
  | a :: rest =>
    if a = 0 then none
    else
      match rest with
      | [] => none
      | b :: _ =>
        if a = 13 ∧ b = 10 then some 0
        else (findCRLF rest).map (· + 1)

/-- Effect on the caller buffer of memcpy of the copied bytes followed by
the store buf[pos] = NUL. -/
def storeNul (copied : List Nat) (pos : Nat) : List Nat :=
  if pos < copied.length then copied.set pos 0 else copied ++ [0]

/-- Observable outcome of comm_read_line: the instance id written through
the out parameter, the bytes written into the caller buffer, the returned
length, and the queue afterwards. -/
structure ReadLineResult where
  instance_id : Int
  buf : List Nat
  ret : Int
  fifo : List Chunk
deriving DecidableEq

/-- Shared tail of comm_read_line after the optional leading-CRLF strip:
off is the offset of the local data pointer into the memory region mem,
hlen is the (possibly already reduced) len field of the head node, and e
is the result of the terminator scan. -/
def readLineCore (c : Chunk) (rest : List Chunk) (mem : List Nat)
    (off : Nat) (hlen : Int) (e : Option Nat) : ReadLineResult :=
  match e with
  | some idx =>
    let copied := (mem.drop off).take idx
    if (idx : Int) + 2 ≥ hlen then
      { instance_id := c.instance_id, buf := storeNul copied idx,
        ret := (idx : Int), fifo := rest }
    else
      { instance_id := c.instance_id, buf := storeNul copied idx,
        ret := (idx : Int),
        fifo := { instance_id := c.instance_id, len := hlen - idx - 2,
                  data := (mem.drop (off + idx + 2)).take (hlen - idx - 2).toNat }
                :: rest }
  | none =>
    { instance_id := c.instance_id, buf := storeNul (mem.take hlen.toNat) 0,
      ret := 0, fifo := rest }

/-- comm_read_line: tail is the heap memory that happens to follow the head
chunk buffer (strstr may scan into it).  On an empty queue the source
busy-waits on the keep_alive pump forever; in this closed model no data
ever arrives, so that case is none. -/
def comm_read_line (tail : List Nat) : List Chunk → Option ReadLineResult
  | [] => none
  | c :: rest =>
    let mem := c.data ++ tail
    let e0 := findCRLF mem
    if e0 = some 0 then
      some (readLineCore c rest mem 2 (c.len - 2) (findCRLF (mem.drop 2)))
    else
      some (readLineCore c rest mem 0 c.len e0)

/-- Observable outcome of comm_read: instance id (of the first chunk), the
returned temp_len, the bytes written into the caller buffer, and the queue
afterwards. -/
structure ReadResult where
  instance_id : Int
  ret : Int
  buf : List Nat
  fifo : List Chunk
deriving DecidableEq

/-- The do-while loop of the shortfall branch of comm_read: each iteration
copies the whole head chunk and drops it, until temp_len is at least len.
If the queue runs dry first, the source spins on the pump forever; in this
closed model that case is none. -/
def readLoop (len : Int) : List Chunk → Int → List Nat →
    Option (Int × List Nat × List Chunk)
  | [], temp, acc => if temp < len then none else some (temp, acc, [])
  | c :: rest, temp, acc =>
    let temp2 := temp + c.len
    let acc2 := acc ++ c.data.take c.len.toNat
    if temp2 < len then readLoop len rest temp2 acc2
    else some (temp2, acc2, rest)

/-- comm_read: fixed-length read of len bytes from the queue. -/
def comm_read (q : List Chunk) (len : Nat) : Option ReadResult :=
  match q with
  | [] => none
  | c :: rest =>
    if c.len = (len : Int) then
      some { instance_id := c.instance_id, ret := (len : Int),
             buf := c.data.take len, fifo := rest }
    else if c.len < (len : Int) then
      match readLoop (len : Int) (c :: rest) 0 [] with
      | none => none
      | some (t, acc, q2) =>
        some { instance_id := c.instance_id, ret := t, buf := acc, fifo := q2 }
    else
      some { instance_id := c.instance_id, ret := (len : Int),
             buf := c.data.take len,
             fifo := { instance_id := c.instance_id, len := c.len - (len : Int),
                       data := (c.data.drop len).take (c.len - (len : Int)).toNat }
                     :: rest }

/-- The queue invariant claimed by the spec: every queued chunk has
positive length. -/
def posLen (q : List Chunk) : Prop := ∀ c ∈ q, 0 < c.len

instance (q : List Chunk) : Decidable (posLen q) := by
  unfold posLen; infer_instance

/-- enum network_states of network.c. -/
inductive ES where
  | es_none
  | accepted
  | received
  | closing
deriving DecidableEq

/-- struct network_instance: the connection tag, the state, and the pending
receive chain es->p modelled as the list of pbuf segment payloads (the
empty list is the NULL chain).  The pcb handle is kept abstract; the calls
made on it are recorded as flags in the result records below. -/
structure NetInstance where
  instance_id : Int
  state : ES
  pending : List (List Nat)
deriving DecidableEq

/-- The loop in network_close that empties the shared queue:
while (network_fifo) network_fifo = fifo_remove_head(network_fifo). -/
def drainAll : List Chunk → List Chunk
  | [] => []
  | c :: rest => drainAll (fifo_remove_head (c :: rest))
termination_by q => q.length
decreasing_by simp [fifo_remove_head]

/-- Observable effects of network_close: the shared queue afterwards,
whether the tcp_arg/tcp_sent/tcp_recv/tcp_err/tcp_poll registrations were
cleared, whether the network_instance was mem_freed, and whether tcp_close
was called on the pcb. -/
structure CloseResult where
  fifo : List Chunk
  callbacksDetached : Bool
  connFreed : Bool
  pcbClosed : Bool
deriving DecidableEq

/-- network_close: empties the whole shared queue, detaches every
callback, frees the instance when present, and closes the pcb. -/
def network_close (fifo : List Chunk) (es : Option NetInstance) : CloseResult :=
  { fifo := drainAll fifo, callbacksDetached := true,
    connFreed := es.isSome, pcbClosed := true }

/-- network_store: drains the pending pbuf chain into the shared queue,
one fifo_insert_tail per segment, and returns the queue together with the
list of tcp_recved acknowledgment byte counts, in order. -/
def network_store : List Chunk → Int → List (List Nat) → List Chunk × List Nat
  | fifo, _, [] => (fifo, [])
  | fifo, id, s :: rest =>
    let r := network_store (fifo_insert_tail fifo s (s.length : Int) id) id rest
    (r.1, s.length :: r.2)

/-- Observable effects of the p == NULL (remote close) branch of
network_recv: the instance afterwards (none when it was freed by
network_close), the shared queue, the tcp_recved acknowledgments issued,
whether network_close ran inside this event, and whether the callbacks
were detached inside this event. -/
structure RecvResult where
  inst : Option NetInstance
  fifo : List Chunk
  acks : List Nat
  closedNow : Bool
  callbacksDetached : Bool
deriving DecidableEq

/-- The p == NULL branch of network_recv: set state to closing; if the
pending chain is empty, close at once; otherwise drain the chain via
network_store and return without closing. -/
def network_recv_remote_close (fifo : List Chunk) (es : NetInstance) : RecvResult :=
  let es1 : NetInstance := { es with state := ES.closing }
  if es1.pending = [] then
    let cr := network_close fifo (some es1)
    { inst := none, fifo := cr.fifo, acks := [], closedNow := true,
      callbacksDetached := cr.callbacksDetached }
  else
    let sr := network_store fifo es1.instance_id es1.pending
    { inst := some { es1 with pending := [] }, fifo := sr.1, acks := sr.2,
      closedNow := false, callbacksDetached := false }

/-- Observable effects of network_error: the Instance Registry afterwards,
whether the network_instance was mem_freed, and whether the pending pbuf
chain was freed. -/
structure ErrorResult where
  instances : List (Int × NetInstance)
  connFreed : Bool
  pendingChainFreed : Bool
deriving DecidableEq

/-- network_error: the body is only if (es != NULL) mem_free(es); the
registry is never touched and the pending chain is never freed. -/
def network_error (instances : List (Int × NetInstance)) (es : Option NetInstance) :
    ErrorResult :=
  { instances := instances, connFreed := es.isSome, pendingChainFreed := false }

/-- HASH_FIND_INT on the Instance Registry. -/
def lookupInst (reg : List (Int × NetInstance)) (id : Int) : Option NetInstance :=
  match reg.find? (fun p => p.1 == id) with
  | none => none
  | some p => some p.2

/-- The send loop of network_write_data.  The inner busy-wait exits
exactly when tcp_sndbuf is nonzero, so the credit observed at the i-th
send is credits i + 1, ranging over every positive sequence.  Each trace
entry records (credit, remaining bytes, bytes passed to tcp_write), where
the bytes passed are buf_len > len ? len : buf_len, i.e. min credit
remaining; the loop runs while remaining bytes are left (do-while: at
least once). -/
def writeLoopTrace (credits : Nat → Nat) (i : Nat) (remaining : Nat) :
    List (Nat × Nat × Nat) :=
  if remaining - min (credits i + 1) remaining = 0 then
    [(credits i + 1, remaining, min (credits i + 1) remaining)]
  else
    (credits i + 1, remaining, min (credits i + 1) remaining)
      :: writeLoopTrace credits (i + 1) (remaining - min (credits i + 1) remaining)
termination_by remaining
decreasing_by omega

/-- network_write_data: looks the connection up; when absent, returns at
once with no sends; when present, runs the send loop.  The registry is
returned unchanged (the source never writes it here). -/
def network_write_data (reg : List (Int × NetInstance)) (id : Int)
    (buf : List Nat) (credits : Nat → Nat) :
    List (Nat × Nat × Nat) × List (Int × NetInstance) :=
  match lookupInst reg id with
  | none => ([], reg)
  | some _ => (writeLoopTrace credits 0 buf.length, reg)

/-- The value network_write_data delivers to its caller: the function is
declared void in the source, so the caller receives no value at all,
whether or not the lookup succeeded. -/
def network_write_data_ret (reg : List (Int × NetInstance)) (id : Int)
    (buf : List Nat) (credits : Nat → Nat) : Unit :=
  let _ := network_write_data reg id buf credits
  ()

/-- Folding a sequence of enqueue operations (id, bytes) over a queue,
each via fifo_insert_tail with the byte count as the length. -/
def enqueueAll : List Chunk → List (Int × List Nat) → List Chunk
  | q, [] => q
  | q, (id, b) :: rest => enqueueAll (fifo_insert_tail q b (b.length : Int) id) rest

/-- The sequence of head chunks observed by repeatedly reading the head
and then removing it with fifo_remove_head, until the queue is empty. -/
def dequeueAll : List Chunk → List Chunk
  | [] => []
  | c :: rest => c :: dequeueAll (fifo_remove_head (c :: rest))
termination_by q => q.length
decreasing_by simp [fifo_remove_head]

lemma take_len_toNat (s : List Nat) : s.take ((s.length : Int)).toNat = s := by
  simp

lemma network_store_eq (segs : List (List Nat)) (fifo : List Chunk) (id : Int) :
    network_store fifo id segs =
      (fifo ++ segs.map (fun s => ⟨id, (s.length : Int), s⟩),
       segs.map List.length) := by
  induction segs generalizing fifo with
  | nil => simp [network_store]
  | cons s rest ih =>
    simp [network_store, fifo_insert_tail, take_len_toNat, ih]

lemma drainAll_nil (q : List Chunk) : drainAll q = [] := by
  induction q with
  | nil => simp [drainAll]
  | cons c rest ih => rw [drainAll]; simpa [fifo_remove_head] using ih

lemma enqueueAll_eq (ops : List (Int × List Nat)) (q : List Chunk) :
    enqueueAll q ops = q ++ ops.map (fun p => ⟨p.1, (p.2.length : Int), p.2⟩) := by
  induction ops generalizing q with
  | nil => simp [enqueueAll]
  | cons p rest ih =>
    simp [enqueueAll, fifo_insert_tail, take_len_toNat, ih]

lemma dequeueAll_id (q : List Chunk) : dequeueAll q = q := by
  induction q with
  | nil => simp [dequeueAll]
  | cons c rest ih => rw [dequeueAll]; simp [fifo_remove_head, ih]

lemma writeLoopTrace_mem (credits : Nat → Nat) :
    ∀ (rem i : Nat) (e : Nat × Nat × Nat), e ∈ writeLoopTrace credits i rem →
      e.2.2 = min e.1 e.2.1 ∧ e.2.2 ≤ e.1 := by
  intro rem
  induction rem using Nat.strong_induction_on with
  | _ rem ih =>
    intro i e he
    rw [writeLoopTrace] at he
    by_cases h : rem - min (credits i + 1) rem = 0
    · simp [h] at he
      subst he
      exact ⟨rfl, Nat.min_le_left _ _⟩
    · simp [h] at he
      rcases he with he | he
      · subst he
        exact ⟨rfl, Nat.min_le_left _ _⟩
      · exact ih (rem - min (credits i + 1) rem) (by omega) (i + 1) e he

lemma readLoop_posLen :
    ∀ (q : List Chunk) (len temp : Int) (acc : List Nat)
      (t : Int) (a : List Nat) (q2 : List Chunk),
      readLoop len q temp acc = some (t, a, q2) → posLen q → posLen q2 := by
  intro q
  induction q with
  | nil =>
    intro len temp acc t a q2 h _
    by_cases hc : temp < len
    · simp [readLoop, hc] at h
    · simp [readLoop, hc] at h
      obtain ⟨_, _, h3⟩ := h
      subst h3
      intro c hc
      simp at hc
  | cons c rest ih =>
    intro len temp acc t a q2 h hp
    by_cases hc : temp + c.len < len
    · rw [readLoop] at h
      simp only [hc, if_true] at h
      exact ih len _ _ t a q2 h (fun x hx => hp x (List.mem_cons_of_mem _ hx))
    · rw [readLoop] at h
      simp only [hc, if_false] at h
      simp only [Option.some.injEq, Prod.mk.injEq] at h
      obtain ⟨-, -, h3⟩ := h
      subst h3
      intro x hx
      exact hp x (List.mem_cons_of_mem _ hx)

lemma readLineCore_posLen (c : Chunk) (rest : List Chunk) (mem : List Nat)
    (off : Nat) (hlen : Int) (e : Option Nat) (hp : posLen rest) :
    posLen (readLineCore c rest mem off hlen e).fifo := by
  cases e with
  | none => simpa [readLineCore] using hp
  | some idx =>
    by_cases h : (idx : Int) + 2 ≥ hlen
    · simpa [readLineCore, h] using hp
    · simp [readLineCore, h, posLen]
      refine ⟨by omega, ?_⟩
      intro x hx
      exact hp x hx

/-- C1: the spec says a fixed-length read stops after copying exactly len
bytes, so that after enqueue(2, ab) and enqueue(2, cdef) a read of length 5
yields abcde and leaves one chunk f tagged 2.  Evaluating comm_read at that
input shows the shortfall loop copies the second chunk whole: 6 bytes
abcdef are written, 6 is returned, and the queue is left empty. -/
theorem comm_read_short_head_eval :
    comm_read [⟨2, 2, [97, 98]⟩, ⟨2, 4, [99, 100, 101, 102]⟩] 5 =
      some { instance_id := 2, ret := 6,
             buf := [97, 98, 99, 100, 101, 102], fifo := [] } := by
  decide

/-- C2: the spec says read_line on a head chunk with no terminator returns
the whole chunk and its full length.  Evaluating comm_read_line on the
chunk abcdef (with a NUL as the adjacent heap byte, the most benign case)
shows the code stores NUL at buffer position 0 (the local length variable
is still 0 in that branch) and returns 0, not 6. -/
theorem comm_read_line_no_terminator_eval :
    comm_read_line [0] [⟨1, 6, [97, 98, 99, 100, 101, 102]⟩] =
      some { instance_id := 1, buf := [0, 98, 99, 100, 101, 102],
             ret := 0, fifo := [] } := by
  decide

/-- C3 counterexample: with connection 7 registered and erroring, the
claim says the error handler removes the registry entry so that a later
lookup reports not-found; evaluating network_error shows the lookup still
finds the entry, and the pending chain is not freed either. -/
theorem network_error_leaves_registry_entry :
    lookupInst (network_error [(7, ⟨7, ES.received, [[104]]⟩)]
        (some ⟨7, ES.received, [[104]]⟩)).instances 7 =
      some ⟨7, ES.received, [[104]]⟩ ∧
    (network_error [(7, ⟨7, ES.received, [[104]]⟩)]
        (some ⟨7, ES.received, [[104]]⟩)).pendingChainFreed = false := by
  decide

/-- C3 amended: network_error releases the Connection object only; it does
not free the pending receive chain and does not remove the entry from the
Instance Registry, which is returned unchanged. -/
theorem network_error_frees_conn_only (reg : List (Int × NetInstance))
    (es : NetInstance) :
    (network_error reg (some es)).connFreed = true ∧
    (network_error reg (some es)).pendingChainFreed = false ∧
    (network_error reg (some es)).instances = reg :=
  ⟨rfl, rfl, rfl⟩

/-- C4 counterexample: the claim says a write on an absent connection id
reports a no-such-connection condition to the caller.  The source function
is void: the value delivered to the caller of a failed write is identical
to that of a successful write on a registered connection, and the failed
write performs no sends, so no failure is reported. -/
theorem network_write_no_report :
    network_write_data_ret [] 5 [97] (fun _ => 0) =
      network_write_data_ret [(5, ⟨5, ES.accepted, []⟩)] 5 [97] (fun _ => 0) ∧
    (network_write_data [] 5 [97] (fun _ => 0)).1 = [] :=
  ⟨rfl, rfl⟩

/-- C4 amended: a write whose connection id is absent from the registry
returns at once, performing no sends and leaving the registry (hence every
other connection) unchanged; no failure indication is delivered to the
caller, the function being void. -/
theorem network_write_data_absent_silent (reg : List (Int × NetInstance))
    (id : Int) (buf : List Nat) (credits : Nat → Nat)
    (h : lookupInst reg id = none) :
    network_write_data reg id buf credits = ([], reg) ∧
    network_write_data_ret reg id buf credits = () := by
  constructor
  · simp [network_write_data, h]
  · rfl

/-- Witness for the amended C4 theorem at the empty registry. -/
theorem network_write_data_absent_silent_witness :
    lookupInst [] 5 = none ∧
    (network_write_data [] 5 [97] (fun _ => 0) = ([], []) ∧
     network_write_data_ret [] 5 [97] (fun _ => 0) = ()) :=
  ⟨rfl, network_write_data_absent_silent [] 5 [97] (fun _ => 0) rfl⟩

/-- C5 counterexample: for a connection in the received state holding the
pending chain [[120]], the claim says the remote-close event finishes
draining and then closes the connection within that event; evaluating the
handler shows no close happens in the event and the callbacks stay
registered. -/
theorem network_recv_remote_close_no_close_eval :
    (network_recv_remote_close [] ⟨1, ES.received, [[120]]⟩).closedNow = false ∧
    (network_recv_remote_close [] ⟨1, ES.received, [[120]]⟩).callbacksDetached
      = false := by
  decide

/-- C5 amended: on a remote-close event with a nonempty pending chain the
handler moves the connection to the closing state and drains the chain into
the Chunk Queue, acknowledging each segment length, but does not close the
connection within that event: the callbacks stay registered and the socket
stays open until a later event runs network_close. -/
theorem network_recv_remote_close_drains_then_defers (fifo : List Chunk)
    (es : NetInstance) (h : es.pending ≠ []) :
    network_recv_remote_close fifo es =
      { inst := some { instance_id := es.instance_id, state := ES.closing,
                       pending := [] },
        fifo := fifo ++ es.pending.map
                  (fun s => ⟨es.instance_id, (s.length : Int), s⟩),
        acks := es.pending.map List.length,
        closedNow := false, callbacksDetached := false } := by
  simp [network_recv_remote_close, h, network_store_eq]

/-- Witness for the amended C5 theorem with pending chain [[120]]. -/
theorem network_recv_remote_close_drains_then_defers_witness :
    ([[120]] : List (List Nat)) ≠ [] ∧
    network_recv_remote_close [] ⟨1, ES.received, [[120]]⟩ =
      { inst := some ⟨1, ES.closing, []⟩, fifo := [⟨1, 1, [120]⟩],
        acks := [1], closedNow := false, callbacksDetached := false } :=
  ⟨by decide,
   network_recv_remote_close_drains_then_defers [] ⟨1, ES.received, [[120]]⟩
     (by decide)⟩

/-- C6: network_close empties the whole shared Chunk Queue, whatever
connections its chunks are tagged with, detaches every socket-layer
callback registration, releases the Connection object and closes the
socket handle. -/
theorem network_close_empties_queue (fifo : List Chunk) (es : NetInstance) :
    network_close fifo (some es) =
      { fifo := [], callbacksDetached := true, connFreed := true,
        pcbClosed := true } := by
  simp [network_close, drainAll_nil]

/-- C7: for any sequence of enqueue operations with arbitrary connection
tags, repeated removal at the head observes the chunks in exactly the
order they were enqueued. -/
theorem fifo_order_preserved (ops : List (Int × List Nat)) :
    dequeueAll (enqueueAll [] ops) =
      ops.map (fun p => ⟨p.1, (p.2.length : Int), p.2⟩) := by
  rw [enqueueAll_eq, dequeueAll_id]
  simp

/-- C8 counterexample: fifo_insert_tail performs no length check, so
enqueuing zero bytes into a queue satisfying the positive-length invariant
yields a queue containing a chunk of length 0. -/
theorem fifo_insert_tail_zero_len_breaks_invariant :
    posLen [] ∧ ¬ posLen (fifo_insert_tail [] [] 0 1) := by
  decide

/-- C8 amended: every queued chunk having positive length is preserved by
enqueue whenever the inserted length is positive, and unconditionally by
read_line and by the fixed-length read: a fully drained chunk is removed
and every remainder chunk left behind has positive length. -/
theorem queue_posLen_invariant :
    (∀ (q : List Chunk) (b : List Nat) (len id : Int),
        0 < len → posLen q → posLen (fifo_insert_tail q b len id)) ∧
    (∀ (tail : List Nat) (q : List Chunk) (r : ReadLineResult),
        comm_read_line tail q = some r → posLen q → posLen r.fifo) ∧
    (∀ (q : List Chunk) (n : Nat) (r : ReadResult),
        comm_read q n = some r → posLen q → posLen r.fifo) := by
  refine ⟨?_, ?_, ?_⟩
  · intro q b len id hlen hp
    intro c hc
    simp [fifo_insert_tail] at hc
    rcases hc with hc | hc
    · exact hp c hc
    · subst hc
      simpa using hlen
  · intro tail q r h hp
    cases q with
    | nil => simp [comm_read_line] at h
    | cons c rest =>
      have hrest : posLen rest := fun x hx => hp x (List.mem_cons_of_mem _ hx)
      simp only [comm_read_line] at h
      split at h <;>
        · cases Option.some.inj h
          exact readLineCore_posLen _ _ _ _ _ _ hrest
  · intro q n r h hp
    cases q with
    | nil => simp [comm_read] at h
    | cons c rest =>
      have hrest : posLen rest := fun x hx => hp x (List.mem_cons_of_mem _ hx)
      simp only [comm_read] at h
      split at h
      · cases Option.some.inj h
        simpa using hrest
      · split at h
        · rcases hr : readLoop (n : Int) (c :: rest) 0 [] with _ | ⟨t, acc, q2⟩
          · rw [hr] at h
            simp at h
          · rw [hr] at h
            simp only at h
            cases Option.some.inj h
            exact readLoop_posLen (c :: rest) (n : Int) 0 [] t acc q2 hr hp
        · cases Option.some.inj h
          rename_i h1 h2
          intro x hx
          rcases List.mem_cons.mp hx with hx | hx
          · subst hx
            simp
            omega
          · exact hrest x hx

/-- Witness for the amended C8 theorem: one concrete instance of each of
the three preserved operations. -/
theorem queue_posLen_invariant_witness :
    posLen (fifo_insert_tail [] [97] 1 1) ∧
    posLen (ReadLineResult.fifo ⟨1, [0, 98, 99, 100, 101, 102], 0, []⟩) ∧
    posLen (ReadResult.fifo ⟨2, 6, [97, 98, 99, 100, 101, 102], []⟩) :=
  ⟨queue_posLen_invariant.1 [] [97] 1 1 (by decide) (by decide),
   queue_posLen_invariant.2.1 [0] [⟨1, 6, [97, 98, 99, 100, 101, 102]⟩]
     ⟨1, [0, 98, 99, 100, 101, 102], 0, []⟩ (by decide) (by decide),
   queue_posLen_invariant.2.2 [⟨2, 2, [97, 98]⟩, ⟨2, 4, [99, 100, 101, 102]⟩] 5
     ⟨2, 6, [97, 98, 99, 100, 101, 102], []⟩ (by decide) (by decide)⟩

/-- C9: on a registered connection, every iteration of the send loop of
network_write_data passes to tcp_write exactly min(current send-window
credit, remaining bytes), and hence never more than the credit. -/
theorem network_write_sends_min (reg : List (Int × NetInstance)) (id : Int)
    (inst : NetInstance) (buf : List Nat) (credits : Nat → Nat)
    (e : Nat × Nat × Nat) (hfound : lookupInst reg id = some inst)
    (he : e ∈ (network_write_data reg id buf credits).1) :
    e.2.2 = min e.1 e.2.1 ∧ e.2.2 ≤ e.1 := by
  simp only [network_write_data, hfound] at he
  exact writeLoopTrace_mem credits buf.length 0 e he

/-- Witness for the C9 theorem: one registered connection, a one-byte
write, constant unit credit; the only trace entry sends min 1 1 = 1. -/
theorem network_write_sends_min_witness :
    lookupInst [(5, ⟨5, ES.accepted, []⟩)] 5 = some ⟨5, ES.accepted, []⟩ ∧
    ((1, 1, 1) : Nat × Nat × Nat) ∈
      (network_write_data [(5, ⟨5, ES.accepted, []⟩)] 5 [97] (fun _ => 0)).1 ∧
    ((1 : Nat) = min 1 1 ∧ (1 : Nat) ≤ 1) := by
  have hm : ((1, 1, 1) : Nat × Nat × Nat) ∈
      (network_write_data [(5, ⟨5, ES.accepted, []⟩)] 5 [97] (fun _ => 0)).1 := by
    show ((1, 1, 1) : Nat × Nat × Nat) ∈ writeLoopTrace (fun _ => 0) 0 1
    rw [writeLoopTrace]
    norm_num
  exact ⟨by decide, hm,
    network_write_sends_min [(5, ⟨5, ES.accepted, []⟩)] 5 ⟨5, ES.accepted, []⟩
      [97] (fun _ => 0) (1, 1, 1) (by decide) hm⟩

/-- C10: the claim says the terminator scan of read_line examines only
offsets strictly below the stored length of the head chunk.  The scan is
strstr on a buffer with no NUL terminator: for the head chunk abcdef,
which contains neither CRLF nor NUL, the outcome depends on the heap bytes
that happen to follow the chunk buffer — adjacent CR LF makes read_line
find a terminator out of bounds and return 6, an adjacent NUL makes it
return 0 — so the scan reads past the end of the chunk. -/
theorem comm_read_line_scan_reads_past_len :
    comm_read_line [13, 10] [⟨1, 6, [97, 98, 99, 100, 101, 102]⟩] =
      some { instance_id := 1, buf := [97, 98, 99, 100, 101, 102, 0],
             ret := 6, fifo := [] } ∧
    comm_read_line [0] [⟨1, 6, [97, 98, 99, 100, 101, 102]⟩] =
      some { instance_id := 1, buf := [0, 98, 99, 100, 101, 102],
             ret := 0, fifo := [] } := by
  decide
